import Mathlib

/-!
# Verification of the pgkit record projector and condition compiler

A shallow embedding, in Lean 4, of the core of `goware/pgkit`:

* the record projector `Map` / `MapWithOptions` (`src/cond.go`, third
  document, package `pgkit` v2; and the legacy variant in
  `src/unnamed/part_010`), which turns a struct or map value into a
  `(names, values)` pair honouring the `omitempty` tag policy;
* the condition compiler of `src/db/cond.go` (`binaryExprLeaf`,
  `binaryExprNode`, `sqlExpr`, `Cond`, and the exposed constructors
  `Eq` … `Raw`, `Func`, `In`, `InMultiple`, `NotIn`), together with the
  behaviour of the vendored `squirrel` v1.5.x combinators `And`, `Or`
  and `squirrel.Eq` that they delegate to;
* the v1 variants of `In` / `NotIn` / `AnyOf` / `NotAnyOf` and
  `compileOperator` from `src/cond.go` (first document);
* a model, built from the specification, of the `reflectx` type-index
  builder (its implementation is not present in the sources, only its
  tests are).

Go's dynamic (`interface{}`) values are embedded as the inductive type
`GoValue`.  Machinery that Go obtains by reflection (struct tags, zero
values of field types, the optional `IsZero() bool` capability) is
carried explicitly on each struct field.
-/

/-- Per-field metadata that Go's reflection reads from a struct type:
the external column name (`fi.Name`, after tag parsing), whether the
raw struct tag contains the `db:"` prefix (v2 `MapWithOptions` skips
fields whose tag does not), whether the tag carries the `omitempty`
option, and whether the field's dynamic type implements the
`hasIsZero` capability (`none` = does not implement it; `some b` =
implements it and `IsZero()` returns `b` on the field's value). -/
structure FieldMeta where
  fname : String
  hasDbTag : Bool
  omitempty : Bool
  isZeroImpl : Option Bool
  deriving DecidableEq, Repr

/-- A Go dynamic value (`interface{}`), as seen by the record projector
and the condition compiler.  `nilV` is the untyped nil interface;
`ptrV none` is a typed nil pointer; `defaultV` is the
`sq.Expr("DEFAULT")` sentinel that the projector emits for omitted
zero fields; `reflectV v` is a `reflect.Value` wrapper around `v`
(it can appear in output because the v2 map branch stores the
`reflect.Value` itself).  A struct value carries, for each field, its
metadata, the zero value of the field's type (`fi.Zero`), and the
field's runtime value, in the traversal order of the type map. -/
inductive GoValue where
  | nilV
  | intV (n : Int)
  | strV (s : String)
  | boolV (b : Bool)
  | defaultV
  | reflectV (v : GoValue)
  | ptrV (p : Option GoValue)
  | sliceV (elems : List GoValue)
  | structV (fields : List (FieldMeta × GoValue × GoValue))
  | mapV (entries : List (String × GoValue))
  deriving Repr

/-- A struct field as the projector sees it: metadata, the zero value
of its type, and its runtime value. -/
abbrev FieldEntry := FieldMeta × GoValue × GoValue

namespace FieldEntry

def meta (f : FieldEntry) : FieldMeta := f.1

def zero (f : FieldEntry) : GoValue := f.2.1

def value (f : FieldEntry) : GoValue := f.2.2

end FieldEntry

mutual

/-- `reflect.DeepEqual`, restricted to the embedded value universe:
structural equality. -/
def goDeepEqual : GoValue → GoValue → Bool
  | .nilV, .nilV => true
  | .intV a, .intV b => a == b
  | .strV a, .strV b => a == b
  | .boolV a, .boolV b => a == b
  | .defaultV, .defaultV => true
  | .reflectV a, .reflectV b => goDeepEqual a b
  | .ptrV none, .ptrV none => true
  | .ptrV (some a), .ptrV (some b) => goDeepEqual a b
  | .sliceV as, .sliceV bs => goDeepEqualList as bs
  | .structV fs, .structV gs => goDeepEqualFields fs gs
  | .mapV as, .mapV bs => goDeepEqualEntries as bs
  | _, _ => false
  termination_by structural x => x

def goDeepEqualList : List GoValue → List GoValue → Bool
  | [], [] => true
  | a :: as, b :: bs => goDeepEqual a b && goDeepEqualList as bs
  | _, _ => false
  termination_by structural x => x

def goDeepEqualFields : List FieldEntry → List FieldEntry → Bool
  | [], [] => true
  | (m, z, v) :: fs, (m', z', v') :: gs =>
      m == m' && goDeepEqual z z' && goDeepEqual v v' && goDeepEqualFields fs gs
  | _, _ => false
  termination_by structural x => x

def goDeepEqualEntries : List (String × GoValue) → List (String × GoValue) → Bool
  | [], [] => true
  | (k, a) :: as, (k', b) :: bs => k == k' && goDeepEqual a b && goDeepEqualEntries as bs
  | _, _ => false
  termination_by structural x => x

end

/-! ## The record projector (`Map` / `MapWithOptions`)

`src/cond.go` (third document, package `pgkit` v2) and the legacy
variant `src/unnamed/part_010`.  The field list of a `structV` models
`Mapper.TypeMap(recordT).Names` in iteration order; since Go map
iteration order is randomized, theorems about determinism quantify
over permutations of this list. -/

/-- `MapOptions` (src/cond.go lines 489-492). -/
structure MapOptions where
  IncludeZeroed : Bool
  IncludeNil : Bool
  deriving DecidableEq, Repr

/-- `defaultMapOptions` (src/cond.go lines 478-481). -/
def defaultMapOptions : MapOptions := ⟨false, false⟩

/-- Outcome of a `Map` call: the `(names, values, error)` triple,
collapsed to three cases.  `panicked` models a Go runtime panic
(`reflect.Value.Interface` on the zero `Value`), which is not an
error return. -/
inductive MapResult where
  | ok (names : List String) (values : List GoValue)
  | err (msg : String)
  | panicked
  deriving Repr

/-- `ErrExpectingPointerToEitherMapOrStruct` (src/cond.go line 486). -/
def errExpectingMapOrStruct : String := "expecting a pointer to either a map or a struct"

/-- The zero-ness determination of v2 `MapWithOptions`
(src/cond.go lines 564-575): prefer the `hasIsZero` capability if the
value implements it; else a zero-length check for arrays/slices; else
`reflect.DeepEqual(fi.Zero.Interface(), value)`. -/
def fieldIsZero (f : FieldEntry) : Bool :=
  match f.meta.isZeroImpl with
  | some b => b
  | none =>
    match f.value with
    | .sliceV l => l.isEmpty
    | _ => goDeepEqual f.zero f.value

/-- `fld.Kind() == reflect.Ptr && fld.IsNil()` (src/cond.go line 549). -/
def isNilPtr : GoValue → Bool
  | .ptrV none => true
  | _ => false

/-- One iteration of the v2 struct-field loop
(src/cond.go lines 537-591).  Each iteration either skips the field
(`none`) or appends exactly one name and one value, in lockstep, so it
is a `filterMap` step producing a `(name, value)` pair. -/
def v2FieldStep (opts : MapOptions) (f : FieldEntry) : Option (String × GoValue) :=
  if !f.meta.hasDbTag then
    none
  else if isNilPtr f.value then
    if f.meta.omitempty && !opts.IncludeNil then
      none
    else if f.meta.omitempty then
      some (f.meta.fname, GoValue.defaultV)
    else
      some (f.meta.fname, GoValue.nilV)
  else
    if fieldIsZero f && f.meta.omitempty && !opts.IncludeZeroed then
      none
    else if fieldIsZero f && f.meta.omitempty then
      some (f.meta.fname, GoValue.defaultV)
    else
      some (f.meta.fname, f.value)

/-- Comparison used by `sort.Sort(&fv)` (src/cond.go lines 641-643):
`fv.fields[i] < fv.fields[j]`.  Go's `sort.Sort` is modelled by
`List.mergeSort`; on lists with pairwise-distinct names any sorted
permutation of the input is unique, so the choice of sorting
algorithm is immaterial there. -/
def fvLess (a b : String × GoValue) : Bool := a.1 ≤ b.1

/-- The `(names, values)` pairs produced by v2 `MapWithOptions` before
the final sort, for a value already dereferenced and dispatched by
kind.  `Except.error` is `ErrExpectingPointerToEitherMapOrStruct` for
any kind other than struct and map.  The map branch stores
`v := valv`, the `reflect.Value` itself (src/cond.go line 607), not
`valv.Interface()` — hence the `reflectV` wrapper. -/
def v2Dispatch (opts : MapOptions) : GoValue → Except String (List (String × GoValue))
  | .structV fields => .ok (fields.filterMap (v2FieldStep opts))
  | .mapV entries => .ok (entries.map fun e => (e.1, GoValue.reflectV e.2))
  | _ => .error errExpectingMapOrStruct

/-- `MapWithOptions` (src/cond.go lines 504-625).  An invalid
(untyped-nil) input returns `(nil, nil, nil)`; a typed nil pointer (or
a pointer to a nil interface) panics inside
`recordV.Elem().Interface()` / `recordV.Type()`; otherwise a single
pointer dereference is applied and the result dispatched by kind.
The sanity check on lines 616-618 cannot fire because every loop
iteration appends one name and one value together; the sort on line
622 applies to both the struct and the map branch. -/
def MapWithOptions (record : GoValue) (options : Option MapOptions) : MapResult :=
  let opts := options.getD defaultMapOptions
  match record with
  | .nilV => .ok [] []
  | .ptrV none => .panicked
  | .ptrV (some .nilV) => .panicked
  | .ptrV (some v) =>
    match v2Dispatch opts v with
    | .error e => .err e
    | .ok pairs =>
      let s := pairs.mergeSort fvLess
      .ok (s.map Prod.fst) (s.map Prod.snd)
  | v =>
    match v2Dispatch opts v with
    | .error e => .err e
    | .ok pairs =>
      let s := pairs.mergeSort fvLess
      .ok (s.map Prod.fst) (s.map Prod.snd)

/-- `Map` (src/cond.go lines 500-502): `MapWithOptions(record, nil)`. -/
def Map (record : GoValue) : MapResult := MapWithOptions record none

/-- One iteration of the legacy struct-field loop
(src/unnamed/part_010 lines 81-131), producing the names and the
values appended by that iteration.  The legacy variant has no
`db:"` tag check.  For a nil non-omitempty pointer field it appends
the name once but `nil` twice (lines 91-99): once in the `else`
branch and once more under `if !tagOmitEmpty`. -/
def legacyFieldStep (opts : MapOptions) (f : FieldEntry) : List String × List GoValue :=
  if isNilPtr f.value then
    if f.meta.omitempty && !opts.IncludeNil then
      ([], [])
    else if f.meta.omitempty then
      ([f.meta.fname], [GoValue.defaultV])
    else
      ([f.meta.fname], [GoValue.nilV, GoValue.nilV])
  else
    if fieldIsZero f && f.meta.omitempty && !opts.IncludeZeroed then
      ([], [])
    else if fieldIsZero f && f.meta.omitempty then
      ([f.meta.fname], [GoValue.defaultV])
    else
      ([f.meta.fname], [f.value])

/-- The legacy struct loop: concatenation of the per-field appends,
in field order. -/
def legacyFields (opts : MapOptions) : List FieldEntry → List String × List GoValue
  | [] => ([], [])
  | f :: fs =>
    let t := legacyFieldStep opts f
    let r := legacyFields opts fs
    (t.1 ++ r.1, t.2 ++ r.2)

/-- Legacy `Map` (src/unnamed/part_010 lines 51-159).  Same top-level
shape as v2, but: no `db:"` tag check, the map branch stores
`valv.Interface()` (the unwrapped value), there is no sanity check,
and the final `sort.Sort(&fv)` is commented out, so fields are
returned in traversal order. -/
def legacyMap (item : GoValue) (options : Option MapOptions) : MapResult :=
  let opts := options.getD defaultMapOptions
  match item with
  | .nilV => .ok [] []
  | .ptrV none => .panicked
  | .ptrV (some .nilV) => .panicked
  | .ptrV (some v) =>
    match v with
    | .structV fields =>
      let r := legacyFields opts fields
      .ok r.1 r.2
    | .mapV entries => .ok (entries.map Prod.fst) (entries.map Prod.snd)
    | _ => .err errExpectingMapOrStruct
  | .structV fields =>
    let r := legacyFields opts fields
    .ok r.1 r.2
  | .mapV entries => .ok (entries.map Prod.fst) (entries.map Prod.snd)
  | _ => .err errExpectingMapOrStruct

/-! ## Claims about the projector: C1, C7, C8 -/

/-- `true` iff the `Map` call returned a non-nil error. -/
def MapResult.isErr : MapResult → Bool
  | .err _ => true
  | _ => false

/-- The inputs on which `MapWithOptions` returns
`ErrExpectingPointerToEitherMapOrStruct`: a valid, non-nil-pointer
input whose single-dereferenced value is neither a struct nor a map. -/
def invalidProjectorInput : GoValue → Bool
  | .nilV => false
  | .ptrV none => false
  | .ptrV (some .nilV) => false
  | .ptrV (some (.structV _)) => false
  | .ptrV (some (.mapV _)) => false
  | .ptrV (some _) => true
  | .structV _ => false
  | .mapV _ => false
  | _ => true

/-- C1.  The legacy `Map` of `src/unnamed/part_010`, applied to a
struct with a single non-omitempty nil pointer field, returns one
column name but two values: the nil-pointer branch appends `nil` to
`fv.values` both in its `else` arm and again under
`if !tagOmitEmpty` (part_010 lines 91-99), so the names and values
lists do not have equal length. -/
theorem legacyMap_nil_ptr_field_unequal_lengths :
    legacyMap (GoValue.structV
        [(⟨"x", true, false, none⟩, GoValue.ptrV none, GoValue.ptrV none)]) none
      = MapResult.ok ["x"] [GoValue.nilV, GoValue.nilV]
    ∧ (["x"] : List String).length ≠
        ([GoValue.nilV, GoValue.nilV] : List GoValue).length := by
  exact ⟨rfl, by decide⟩

/-- C7 counterexample.  An untyped nil input is neither a struct nor a
map after dereference, yet `MapWithOptions` accepts it, returning
`(nil, nil, nil)` rather than the `InvalidInput` error
(src/cond.go lines 510-513). -/
theorem mapWithOptions_nil_input_no_error :
    MapWithOptions GoValue.nilV none = MapResult.ok [] []
    ∧ (MapWithOptions GoValue.nilV none).isErr = false := by
  exact ⟨rfl, rfl⟩

/-- C7 (amended).  `MapWithOptions` returns the
`ErrExpectingPointerToEitherMapOrStruct` error exactly on valid,
non-nil-pointer inputs whose single-dereferenced value is neither a
struct nor a map; on every other input no error is returned (an
untyped nil input yields empty output, a nil pointer or a pointer to
a nil interface panics, and struct or map inputs are accepted). -/
theorem mapWithOptions_err_iff_invalid (v : GoValue) (o : Option MapOptions) :
    (MapWithOptions v o = MapResult.err errExpectingMapOrStruct
      ↔ invalidProjectorInput v = true)
    ∧ (invalidProjectorInput v = false
      → (MapWithOptions v o).isErr = false) := by
  cases v with
  | ptrV p =>
    cases p with
    | none => simp [MapWithOptions, invalidProjectorInput, MapResult.isErr]
    | some w =>
      cases w <;>
        simp [MapWithOptions, invalidProjectorInput, MapResult.isErr, v2Dispatch,
          errExpectingMapOrStruct]
  | _ =>
    simp [MapWithOptions, invalidProjectorInput, MapResult.isErr, v2Dispatch,
      errExpectingMapOrStruct]

/-- C7 witness: a plain integer input is rejected with the error, and
a struct input is accepted. -/
theorem mapWithOptions_err_iff_invalid_witness :
    MapWithOptions (GoValue.intV 3) none = MapResult.err errExpectingMapOrStruct
    ∧ (MapWithOptions (GoValue.structV []) none).isErr = false := by
  exact ⟨(mapWithOptions_err_iff_invalid (GoValue.intV 3) none).1.mpr rfl,
    (mapWithOptions_err_iff_invalid (GoValue.structV []) none).2 rfl⟩

/-- C8.  The v2 `MapWithOptions` map branch stores the
`reflect.Value` wrapper itself (`v := valv`, src/cond.go line 607)
instead of the unwrapped entry value (`valv.Interface()`, as the
adjacent commented-out code and the legacy variant
`src/unnamed/part_010` line 143 do): on the dictionary `{"a": 1}` the
returned value is the wrapper around `1`, not `1` itself. -/
theorem mapWithOptions_map_branch_wraps_values :
    MapWithOptions (GoValue.mapV [("a", GoValue.intV 1)]) none
      = MapResult.ok ["a"] [GoValue.reflectV (GoValue.intV 1)]
    ∧ GoValue.reflectV (GoValue.intV 1) ≠ GoValue.intV 1
    ∧ legacyMap (GoValue.mapV [("a", GoValue.intV 1)]) none
      = MapResult.ok ["a"] [GoValue.intV 1] := by
  refine ⟨?_, by simp, rfl⟩
  simp [MapWithOptions, v2Dispatch, List.mergeSort]

/-! ## Claims about the projector: C3, C6 -/

/-- The names list of a `Map` result (empty on error/panic). -/
def MapResult.names : MapResult → List String
  | .ok ns _ => ns
  | _ => []

/-- The `(name, value)` pairs of a `Map` result, positionally zipped. -/
def MapResult.pairs : MapResult → List (String × GoValue)
  | .ok ns vs => ns.zip vs
  | _ => []

theorem mapWithOptions_structV (L : List FieldEntry) (o : Option MapOptions) :
    MapWithOptions (GoValue.structV L) o =
      .ok (((L.filterMap (v2FieldStep (o.getD defaultMapOptions))).mergeSort fvLess).map
            Prod.fst)
          (((L.filterMap (v2FieldStep (o.getD defaultMapOptions))).mergeSort fvLess).map
            Prod.snd) := rfl

theorem v2FieldStep_name {opts : MapOptions} {f : FieldEntry} {p : String × GoValue}
    (h : v2FieldStep opts f = some p) : p.1 = f.meta.fname := by
  unfold v2FieldStep at h
  split_ifs at h <;>
    first
      | exact Option.noConfusion h
      | (rw [Option.some_inj] at h; rw [← h])

theorem filterMap_names_sublist (opts : MapOptions) (L : List FieldEntry) :
    ((L.filterMap (v2FieldStep opts)).map Prod.fst).Sublist
      (L.map fun g => g.meta.fname) := by
  induction L with
  | nil => simp
  | cons f fs ih =>
    rw [List.filterMap_cons]
    cases h : v2FieldStep opts f with
    | none => exact (List.map_cons _ _ _ ▸ ih.cons _)
    | some p =>
      simpa [v2FieldStep_name h] using ih.cons₂ (f.meta.fname)

theorem fvLess_trans (a b c : String × GoValue) :
    fvLess a b = true → fvLess b c = true → fvLess a c = true := by
  simp only [fvLess, decide_eq_true_eq]
  exact le_trans

theorem fvLess_total (a b : String × GoValue) :
    (fvLess a b || fvLess b a) = true := by
  simp only [fvLess, Bool.or_eq_true, decide_eq_true_eq]
  exact le_total a.1 b.1

/-- The sorted pair list underlying a v2 struct projection. -/
def v2SortedPairs (opts : MapOptions) (L : List FieldEntry) : List (String × GoValue) :=
  (L.filterMap (v2FieldStep opts)).mergeSort fvLess

theorem v2SortedPairs_perm (opts : MapOptions) (L : List FieldEntry) :
    (v2SortedPairs opts L).Perm (L.filterMap (v2FieldStep opts)) :=
  List.mergeSort_perm _ _

theorem v2SortedPairs_names_nodup (opts : MapOptions) (L : List FieldEntry)
    (hnd : (L.map fun g => g.meta.fname).Nodup) :
    ((v2SortedPairs opts L).map Prod.fst).Nodup := by
  have h1 : ((L.filterMap (v2FieldStep opts)).map Prod.fst).Nodup :=
    (filterMap_names_sublist opts L).nodup hnd
  exact (((v2SortedPairs_perm opts L).map Prod.fst).nodup_iff).mpr h1

theorem v2SortedPairs_sorted_strict (opts : MapOptions) (L : List FieldEntry)
    (hnd : (L.map fun g => g.meta.fname).Nodup) :
    (v2SortedPairs opts L).Pairwise (fun a b => a.1 < b.1) := by
  have hle : (v2SortedPairs opts L).Pairwise (fun a b => fvLess a b = true) :=
    List.sorted_mergeSort fvLess_trans fvLess_total _
  have hne : (v2SortedPairs opts L).Pairwise (fun a b => a.1 ≠ b.1) :=
    List.pairwise_map.mp (v2SortedPairs_names_nodup opts L hnd)
  refine (hle.and hne).imp ?_
  rintro a b ⟨h1, h2⟩
  simp only [fvLess, decide_eq_true_eq] at h1
  exact lt_of_le_of_ne h1 h2

/-- C6 (amended).  The v2 projector is deterministic: the final
`sort.Sort` by field name makes the output independent of the
randomized iteration order of the type map, provided field names are
pairwise distinct (they are, since `TypeMap(t).Names` is keyed by
name).  Two permutations of the same field list project
identically. -/
theorem mapWithOptions_deterministic (L₁ L₂ : List FieldEntry) (o : Option MapOptions)
    (hp : L₁.Perm L₂) (hnd : (L₁.map fun g => g.meta.fname).Nodup) :
    MapWithOptions (GoValue.structV L₁) o = MapWithOptions (GoValue.structV L₂) o := by
  have hnd₂ : (L₂.map fun g => g.meta.fname).Nodup := ((hp.map _).nodup_iff).mp hnd
  set opts := o.getD defaultMapOptions with hopts
  have hperm : (v2SortedPairs opts L₁).Perm (v2SortedPairs opts L₂) :=
    ((v2SortedPairs_perm opts L₁).trans (hp.filterMap _)).trans
      (v2SortedPairs_perm opts L₂).symm
  have hs₁ := v2SortedPairs_sorted_strict opts L₁ hnd
  have hs₂ := v2SortedPairs_sorted_strict opts L₂ hnd₂
  haveI : IsAntisymm (String × GoValue) (fun a b => a.1 < b.1) :=
    ⟨fun a b h1 h2 => absurd h2 (not_lt.mpr (le_of_lt h1))⟩
  have heq : v2SortedPairs opts L₁ = v2SortedPairs opts L₂ :=
    List.eq_of_perm_of_sorted hperm hs₁ hs₂
  rw [mapWithOptions_structV, mapWithOptions_structV, ← hopts]
  show MapResult.ok ((v2SortedPairs opts L₁).map Prod.fst)
      ((v2SortedPairs opts L₁).map Prod.snd) = MapResult.ok _ _
  rw [heq]
  rfl

/-- C6 witness: a two-field record projected from either iteration
order yields the same `(names, values)`. -/
theorem mapWithOptions_deterministic_witness :
    MapWithOptions (GoValue.structV
        [(⟨"a", true, false, none⟩, GoValue.intV 0, GoValue.intV 1),
         (⟨"b", true, false, none⟩, GoValue.intV 0, GoValue.intV 2)]) none
      = MapWithOptions (GoValue.structV
        [(⟨"b", true, false, none⟩, GoValue.intV 0, GoValue.intV 2),
         (⟨"a", true, false, none⟩, GoValue.intV 0, GoValue.intV 1)]) none := by
  exact mapWithOptions_deterministic _ _ none
    (List.Perm.swap _ _ _) (by decide)

/-- C6 counterexample.  The legacy `Map` of `src/unnamed/part_010`
does not sort (the `sort.Sort(&fv)` call on its line 156 is commented
out), so two runs over the same record — whose type-map iteration
order Go randomizes — can return different names sequences: the two
field orders below are permutations of one another yet project to
`["a", "b"]` and `["b", "a"]`. -/
theorem legacyMap_order_unstable :
    ([(⟨"a", true, false, none⟩, GoValue.intV 0, GoValue.intV 1),
      (⟨"b", true, false, none⟩, GoValue.intV 0, GoValue.intV 2)] : List FieldEntry).Perm
      [(⟨"b", true, false, none⟩, GoValue.intV 0, GoValue.intV 2),
       (⟨"a", true, false, none⟩, GoValue.intV 0, GoValue.intV 1)]
    ∧ legacyMap (GoValue.structV
        [(⟨"a", true, false, none⟩, GoValue.intV 0, GoValue.intV 1),
         (⟨"b", true, false, none⟩, GoValue.intV 0, GoValue.intV 2)]) none
      = MapResult.ok ["a", "b"] [GoValue.intV 1, GoValue.intV 2]
    ∧ legacyMap (GoValue.structV
        [(⟨"b", true, false, none⟩, GoValue.intV 0, GoValue.intV 2),
         (⟨"a", true, false, none⟩, GoValue.intV 0, GoValue.intV 1)]) none
      = MapResult.ok ["b", "a"] [GoValue.intV 2, GoValue.intV 1]
    ∧ (["a", "b"] : List String) ≠ ["b", "a"] := by
  exact ⟨List.Perm.swap _ _ _, rfl, rfl, by decide⟩

theorem zip_fst_snd {α β : Type} (s : List (α × β)) :
    (s.map Prod.fst).zip (s.map Prod.snd) = s := by
  rw [List.zip_map']
  simp

theorem mapWithOptions_structV_names (L : List FieldEntry) (o : Option MapOptions) :
    (MapWithOptions (GoValue.structV L) o).names =
      (v2SortedPairs (o.getD defaultMapOptions) L).map Prod.fst := rfl

theorem mapWithOptions_structV_pairs (L : List FieldEntry) (o : Option MapOptions) :
    (MapWithOptions (GoValue.structV L) o).pairs =
      v2SortedPairs (o.getD defaultMapOptions) L := by
  rw [mapWithOptions_structV]
  show ((v2SortedPairs (o.getD defaultMapOptions) L).map Prod.fst).zip
      ((v2SortedPairs (o.getD defaultMapOptions) L).map Prod.snd) = _
  exact zip_fst_snd _

/-- C3 counterexample.  A nil pointer is the zero value of its (pointer)
type, but a nil omitempty pointer field takes the nil branch of
`MapWithOptions` (src/cond.go lines 549-560), which is governed by
`IncludeNil`, not `IncludeZeroed`: with `IncludeZeroed = true` the
column is still omitted, not bound to the DEFAULT sentinel. -/
theorem mapWithOptions_nil_ptr_not_included_by_includeZeroed :
    MapWithOptions (GoValue.structV
        [(⟨"x", true, true, none⟩, GoValue.ptrV none, GoValue.ptrV none)])
        (some ⟨true, false⟩)
      = MapResult.ok [] []
    ∧ ("x", GoValue.defaultV) ∉
        (MapWithOptions (GoValue.structV
          [(⟨"x", true, true, none⟩, GoValue.ptrV none, GoValue.ptrV none)])
          (some ⟨true, false⟩)).pairs := by
  constructor
  · rw [mapWithOptions_structV]
    simp [v2SortedPairs, v2FieldStep, FieldEntry.meta, FieldEntry.value, isNilPtr,
      List.mergeSort]
  · rw [mapWithOptions_structV_pairs]
    simp [v2SortedPairs, v2FieldStep, FieldEntry.meta, FieldEntry.value, isNilPtr,
      List.mergeSort]

/-- C3 (amended).  For every struct record with pairwise-distinct
field names, and every `db`-tagged omitempty field whose value is not
a nil pointer but is determined zero by the projector's zero check
(custom `IsZero` if implemented, else emptiness for slices, else
`reflect.DeepEqual` with the type's zero value): projecting with
default options omits that column, and projecting with
`IncludeZeroed = true` includes it bound to the DEFAULT sentinel and
never to the literal zero value.  (Nil omitempty pointer fields are
instead governed by `IncludeNil`; see the counterexample.) -/
theorem mapWithOptions_omitempty_zero (L : List FieldEntry) (f : FieldEntry)
    (hf : f ∈ L) (htag : f.meta.hasDbTag = true) (hoe : f.meta.omitempty = true)
    (hnp : isNilPtr f.value = false) (hz : fieldIsZero f = true)
    (hnd : (L.map fun g => g.meta.fname).Nodup) :
    f.meta.fname ∉ (MapWithOptions (GoValue.structV L) none).names
    ∧ (f.meta.fname, GoValue.defaultV) ∈
        (MapWithOptions (GoValue.structV L) (some ⟨true, false⟩)).pairs
    ∧ ∀ v, (f.meta.fname, v) ∈
        (MapWithOptions (GoValue.structV L) (some ⟨true, false⟩)).pairs →
        v = GoValue.defaultV := by
  have hinj := List.inj_on_of_nodup_map hnd
  have hstep0 : v2FieldStep defaultMapOptions f = none := by
    simp [v2FieldStep, htag, hnp, hz, hoe, defaultMapOptions]
  have hstep1 : v2FieldStep ⟨true, false⟩ f = some (f.meta.fname, GoValue.defaultV) := by
    simp [v2FieldStep, htag, hnp, hz, hoe]
  refine ⟨?_, ?_, ?_⟩
  · rw [mapWithOptions_structV_names]
    intro hmem
    simp only [Option.getD] at hmem
    obtain ⟨p, hp, hp1⟩ := List.mem_map.mp hmem
    have hp' : p ∈ L.filterMap (v2FieldStep defaultMapOptions) :=
      (v2SortedPairs_perm defaultMapOptions L).mem_iff.mp hp
    obtain ⟨g, hg, hgp⟩ := List.mem_filterMap.mp hp'
    have : g = f := hinj hg hf (by rw [← v2FieldStep_name hgp, hp1])
    rw [this, hstep0] at hgp
    exact Option.noConfusion hgp
  · rw [mapWithOptions_structV_pairs]
    show _ ∈ v2SortedPairs ⟨true, false⟩ L
    exact (v2SortedPairs_perm _ L).mem_iff.mpr
      (List.mem_filterMap.mpr ⟨f, hf, hstep1⟩)
  · intro v hv
    rw [mapWithOptions_structV_pairs] at hv
    have hv' : (f.meta.fname, v) ∈ L.filterMap (v2FieldStep ⟨true, false⟩) :=
      (v2SortedPairs_perm _ L).mem_iff.mp hv
    obtain ⟨g, hg, hgp⟩ := List.mem_filterMap.mp hv'
    have : g = f := hinj hg hf (v2FieldStep_name hgp).symm
    rw [this, hstep1] at hgp
    exact ((Prod.mk.injEq _ _ _ _).mp (Option.some_inj.mp hgp)).2.symm

/-- C3 witness: record `{ID int `db:"id,omitempty"`, Name string
`db:"name"`}` with `ID = 0`: default projection omits `id`;
`IncludeZeroed` binds `id` to DEFAULT. -/
theorem mapWithOptions_omitempty_zero_witness :
    "id" ∉ (MapWithOptions (GoValue.structV
        [(⟨"id", true, true, none⟩, GoValue.intV 0, GoValue.intV 0),
         (⟨"name", true, false, none⟩, GoValue.strV "", GoValue.strV "joe")]) none).names
    ∧ ("id", GoValue.defaultV) ∈
        (MapWithOptions (GoValue.structV
          [(⟨"id", true, true, none⟩, GoValue.intV 0, GoValue.intV 0),
           (⟨"name", true, false, none⟩, GoValue.strV "", GoValue.strV "joe")])
          (some ⟨true, false⟩)).pairs := by
  have h := mapWithOptions_omitempty_zero
    [(⟨"id", true, true, none⟩, GoValue.intV 0, GoValue.intV 0),
     (⟨"name", true, false, none⟩, GoValue.strV "", GoValue.strV "joe")]
    (⟨"id", true, true, none⟩, GoValue.intV 0, GoValue.intV 0)
    (List.mem_cons_self _ _) rfl rfl rfl rfl (by decide)
  exact ⟨h.1, h.2.1⟩

/-! ## The condition compiler of `src/db/cond.go`

Go `interface{}` operands of a binary condition are either a plain
string (a column name), a plain non-`Sqlizer` value, or one of the
`Sqlizer` expressions.  The `Sqlizer`s of the package are
`*binaryExprLeaf` (`leaf`), `*sqlExpr` (the closures produced by
`Raw`, `Func` — hence `In`/`NotIn` — and `InMultiple`),
`*binaryExprNode` (`node`), `Cond`, and the squirrel v1.5 combinators
`And`/`Or` (modelled by `andE`/`orE`; the repository aliases them,
`src/db/cond.go` lines 16-18).  `Cond` is a Go map; its entry list
here is in iteration order, which Go randomizes. -/

namespace db

mutual

inductive DbOperand where
  | colName (s : String)
  | value (v : GoValue)
  | expr (e : DbExpr)

inductive DbExpr where
  | leaf (op : String) (v : GoValue)
  | rawE (sql : String) (args : List GoValue)
  | funcE (name : String) (params : List DbOperand)
  | inMultiple (tuples : List (List GoValue))
  | node (l r : DbOperand)
  | andE (cs : List DbExpr)
  | orE (cs : List DbExpr)
  | condE (pairs : List (DbOperand × DbOperand))

end

theorem dbOperand_sizeOf_pos (o : DbOperand) : 0 < sizeOf o := by
  cases o <;> simp_arith

/-- `binaryExprLeaf.ToSql` (src/db/cond.go lines 38-44): a nil value
compiles to the empty fragment with no arguments, otherwise to a
single positional marker binding that one value. -/
def leafValueSql : GoValue → String × List GoValue
  | .nilV => ("", [])
  | v => ("?", [v])

/-- `compileOperator` (src/db/cond.go lines 95-105): the operator of a
`*binaryExprLeaf`, the empty string for a `*sqlExpr`, and `" ="` for
anything else (plain strings, plain values, and every other
`Sqlizer`). -/
def compileOperator : DbOperand → String
  | .expr (.leaf op _) => " " ++ op
  | .expr (.rawE _ _) => ""
  | .expr (.funcE _ _) => ""
  | .expr (.inMultiple _) => ""
  | _ => " ="

/-- `strings.Join(elems, sep)`: concatenation of the elements with the
separator between consecutive elements. -/
def strJoin (elems : List String) (sep : String) : String :=
  match elems with
  | [] => ""
  | [a] => a
  | a :: b :: rest => a ++ sep ++ strJoin (b :: rest) sep

/-- Portable boolean literals of squirrel v1.5 (`expr.go`). -/
def sqlTrue : String := "(1=1)"

def sqlFalse : String := "(1=0)"

/-- `squirrel.Placeholders(n)`: `"?,?,…,?"`. -/
def placeholders (n : Nat) : String :=
  strJoin (List.replicate n "?") ","

/-- The single pointer dereference `squirrel.Eq.toSQL` applies to a
value before dispatching on it: a nil pointer becomes nil, a non-nil
pointer is dereferenced once. -/
def sqEqDeref : GoValue → GoValue
  | .ptrV none => .nilV
  | .ptrV (some x) => x
  | v => v

/-- A single-entry `squirrel.Eq{name: v}.ToSql()` (squirrel v1.5
`expr.go`, `Eq.toSQL`), which the backward-compatible shorthand of
`binaryExprNode.ToSql` delegates to (src/db/cond.go line 59): nil (or
nil pointer) → `name IS NULL` with no argument; empty slice →
`(1=0)`; non-empty slice → `name IN (?,…,?)` binding the elements in
order; anything else → `name = ?` binding the (dereferenced) value. -/
def sqEqSingle (name : String) (v : GoValue) : String × List GoValue :=
  match sqEqDeref v with
  | .nilV => (name ++ " IS NULL", [])
  | .sliceV [] => (sqlFalse, [])
  | .sliceV l => (name ++ " IN (" ++ placeholders l.length ++ ")", l)
  | w => (name ++ " = ?", [w])

/-- One parenthesized tuple group of `InMultiple`
(src/db/cond.go lines 220-223): `"("` + `strings.Repeat("?,", n)`
with the trailing comma trimmed + `")"`. -/
def tupleGroup (t : List GoValue) : String :=
  "(" ++ strJoin (t.map fun _ => "?") "," ++ ")"

/-- The loop of `InMultiple` (src/db/cond.go lines 219-231): one group
per tuple, a comma between consecutive groups, and the tuple elements
appended to the argument list in row-major order. -/
def inMultipleBody : List (List GoValue) → String × List GoValue
  | [] => ("", [])
  | [t] => (tupleGroup t, t)
  | t :: t' :: ts =>
    let r := inMultipleBody (t' :: ts)
    (tupleGroup t ++ "," ++ r.1, t ++ r.2)

mutual

/-- `ToSql` of each `Sqlizer` of `src/db/cond.go` (and of the squirrel
v1.5 `And`/`Or` conjunctions they are aliased to):
`binaryExprLeaf.ToSql`, `sqlExpr.ToSql` for the closures built by
`Raw` (lines 244-248), `Func` (lines 251-276) and `InMultiple`
(lines 210-236), `binaryExprNode.ToSql` (lines 53-78), `conj.join`
with separator `" AND "`/`" OR "` and default `(1=1)`/`(1=0)`
(squirrel v1.5 `expr.go`), and `Cond.ToSql` (lines 134-142). -/
def exprToSql : DbExpr → Except String (String × List GoValue)
  | .leaf _ v => .ok (leafValueSql v)
  | .rawE s args => .ok (s, args)
  | .funcE name [] => .ok (name ++ " ()", [])
  | .funcE name (p :: ps) =>
    match funcParams name 0 (p :: ps) with
    | .error e => .error e
    | .ok (places, args) =>
      .ok (name ++ " (" ++ strJoin places ", " ++ ")", args)
  | .inMultiple tuples =>
    .ok ("IN (" ++ (inMultipleBody tuples).1 ++ ")", (inMultipleBody tuples).2)
  | .node l r => nodeToSql l r
  | .andE [] => .ok (sqlTrue, [])
  | .andE (c :: cs) =>
    match conjParts (c :: cs) with
    | .error e => .error e
    | .ok (parts, args) =>
      .ok (if parts.isEmpty then ""
           else "(" ++ strJoin parts " AND " ++ ")", args)
  | .orE [] => .ok (sqlFalse, [])
  | .orE (c :: cs) =>
    match conjParts (c :: cs) with
    | .error e => .error e
    | .ok (parts, args) =>
      .ok (if parts.isEmpty then ""
           else "(" ++ strJoin parts " OR " ++ ")", args)
  | .condE pairs => condNodes 0 pairs
  termination_by e => sizeOf e

/-- `binaryExprNode.ToSql` (src/db/cond.go lines 53-78): the
backward-compatible shorthand (string key, non-`Sqlizer` value)
delegates to `squirrel.Eq`; otherwise both sides are compiled with
`compileLeaf`, the operator is always taken from the right side, and
when the right side compiles to the empty string only the left
fragment and operator are emitted, with the left arguments alone. -/
def nodeToSql : DbOperand → DbOperand → Except String (String × List GoValue)
  | .colName s, .colName t => .ok (sqEqSingle s (.strV t))
  | .colName s, .value v => .ok (sqEqSingle s v)
  | l, r =>
    match compileLeaf l with
    | .error err => .error ("error compiling left side: " ++ err)
    | .ok (ql, argsl) =>
      match compileLeaf r with
      | .error err => .error ("error compiling right side: " ++ err)
      | .ok (rl, argsr) =>
        if rl = "" then .ok (ql ++ compileOperator r, argsl)
        else .ok (ql ++ compileOperator r ++ " " ++ rl, argsl ++ argsr)
  termination_by l r => sizeOf l + sizeOf r
  decreasing_by
    · simp_wf
      have := dbOperand_sizeOf_pos r
      omega
    · simp_wf
      have := dbOperand_sizeOf_pos l
      omega

/-- `compileLeaf` (src/db/cond.go lines 107-129): a string passes
through; a `*binaryExprLeaf` and a `*sqlExpr` compile via their own
`ToSql`; any other `Sqlizer` is compiled and parenthesized; a plain
value becomes one positional marker binding it. -/
def compileLeaf : DbOperand → Except String (String × List GoValue)
  | .colName s => .ok (s, [])
  | .value v => .ok ("?", [v])
  | .expr (.leaf _ v) => .ok (leafValueSql v)
  | .expr (.rawE s args) => .ok (s, args)
  | .expr (.funcE name params) => exprToSql (.funcE name params)
  | .expr (.inMultiple tuples) => exprToSql (.inMultiple tuples)
  | .expr e =>
    match exprToSql e with
    | .error err => .error ("error compiling leaf: " ++ err)
    | .ok (s, a) => .ok ("(" ++ s ++ ")", a)
  termination_by o => sizeOf o
  decreasing_by all_goals simp_wf

/-- The parameter loop of `Func` (src/db/cond.go lines 260-272): a
`Sqlizer` parameter is compiled and its fragment spliced as the
placeholder text; any other parameter contributes a `?` placeholder
and is appended to the arguments. -/
def funcParams (name : String) (i : Nat) :
    List DbOperand → Except String (List String × List GoValue)
  | [] => .ok ([], [])
  | p :: ps =>
    match p with
    | .expr e =>
      match exprToSql e with
      | .error err =>
        .error (name ++ ": error compiling argument " ++ toString i ++ ": " ++ err)
      | .ok (s, a) =>
        match funcParams name (i + 1) ps with
        | .error e' => .error e'
        | .ok (places, args) => .ok (s :: places, a ++ args)
    | .colName s =>
      match funcParams name (i + 1) ps with
      | .error e' => .error e'
      | .ok (places, args) => .ok ("?" :: places, GoValue.strV s :: args)
    | .value v =>
      match funcParams name (i + 1) ps with
      | .error e' => .error e'
      | .ok (places, args) => .ok ("?" :: places, v :: args)
  termination_by ps => sizeOf ps

/-- The part loop of squirrel v1.5 `conj.join`: each conjunct is
compiled; conjuncts whose fragment is empty are skipped, and their
arguments with them. -/
def conjParts : List DbExpr → Except String (List String × List GoValue)
  | [] => .ok ([], [])
  | c :: cs =>
    match exprToSql c with
    | .error e => .error e
    | .ok (s, a) =>
      match conjParts cs with
      | .error e => .error e
      | .ok (parts, args) =>
        if s = "" then .ok (parts, args)
        else .ok (s :: parts, a ++ args)
  termination_by cs => sizeOf cs

/-- `compileNodes` (src/db/cond.go lines 80-93), as invoked by
`Cond.ToSql`: each map entry becomes a `binaryExprNode`, compiled
fragments are concatenated with no separator, and arguments are
appended in entry order. -/
def condNodes (i : Nat) : List (DbOperand × DbOperand) → Except String (String × List GoValue)
  | [] => .ok ("", [])
  | (l, r) :: ps =>
    match nodeToSql l r with
    | .error err => .error ("error compiling node " ++ toString i ++ ": " ++ err)
    | .ok (s, a) =>
      match condNodes (i + 1) ps with
      | .error e => .error e
      | .ok (q, args) => .ok (s ++ q, a ++ args)
  termination_by ps => sizeOf ps

end

/-- `Eq` (src/db/cond.go lines 144-147). -/
def Eq (v : GoValue) : DbExpr := .leaf "=" v

/-- `NotEq` (src/db/cond.go lines 149-152). -/
def NotEq (v : GoValue) : DbExpr := .leaf "<>" v

/-- `Gt` (src/db/cond.go lines 154-157). -/
def Gt (v : GoValue) : DbExpr := .leaf ">" v

/-- `Gte` (src/db/cond.go lines 159-162). -/
def Gte (v : GoValue) : DbExpr := .leaf ">=" v

/-- `Lt` (src/db/cond.go lines 164-167). -/
def Lt (v : GoValue) : DbExpr := .leaf "<" v

/-- `Lte` (src/db/cond.go lines 169-172). -/
def Lte (v : GoValue) : DbExpr := .leaf "<=" v

/-- `IsNull` (src/db/cond.go lines 174-177). -/
def IsNull : DbExpr := .leaf "IS NULL" .nilV

/-- `IsNotNull` (src/db/cond.go lines 179-182). -/
def IsNotNull : DbExpr := .leaf "IS NOT NULL" .nilV

/-- `Like` (src/db/cond.go lines 184-187). -/
def Like (v : GoValue) : DbExpr := .leaf "LIKE" v

/-- `NotLike` (src/db/cond.go lines 189-192). -/
def NotLike (v : GoValue) : DbExpr := .leaf "NOT LIKE" v

/-- `ILike` (src/db/cond.go lines 194-197). -/
def ILike (v : GoValue) : DbExpr := .leaf "ILIKE" v

/-- `NotILike` (src/db/cond.go lines 199-202). -/
def NotILike (v : GoValue) : DbExpr := .leaf "NOT ILIKE" v

/-- `Func` (src/db/cond.go lines 251-276). -/
def Func (name : String) (params : List DbOperand) : DbExpr := .funcE name params

/-- `In` (src/db/cond.go lines 204-207): `Func("IN", v...)`. -/
def In (params : List DbOperand) : DbExpr := Func "IN" params

/-- `NotIn` (src/db/cond.go lines 238-241): `Func("NOT IN", v...)`. -/
def NotIn (params : List DbOperand) : DbExpr := Func "NOT IN" params

/-- `Raw` (src/db/cond.go lines 243-248): the literal fragment and
argument list pass through unchanged. -/
def Raw (sql : String) (args : List GoValue) : DbExpr := .rawE sql args

/-- `InMultiple` (src/db/cond.go lines 209-236), called with one
variadic argument (the code only reads `v[0]`; the zero-argument call
compiles identically to an empty tuple list). -/
def InMultiple (tuples : List (List GoValue)) : DbExpr := .inMultiple tuples

/-- `squirrel.And` (aliased at src/db/cond.go line 16). -/
def And (cs : List DbExpr) : DbExpr := .andE cs

/-- `squirrel.Or` (aliased at src/db/cond.go line 18). -/
def Or (cs : List DbExpr) : DbExpr := .orE cs

/-- `Cond` (src/db/cond.go lines 131-142), with entries listed in the
(randomized) map iteration order. -/
def Cond (pairs : List (DbOperand × DbOperand)) : DbExpr := .condE pairs

end db

/-! ## Claims about the condition compiler: C4, C9 -/

/-- Number of positional markers (`?` characters) in a fragment. -/
def countMarkers (s : String) : Nat := s.data.count '?'

theorem countMarkers_append (a b : String) :
    countMarkers (a ++ b) = countMarkers a + countMarkers b := by
  simp [countMarkers, String.data_append, List.count_append]

namespace db

/-- `true` iff the operand is a `*binaryExprLeaf` (a comparison leaf
carrying an operator). -/
def isCompLeaf : DbOperand → Bool
  | .expr (.leaf _ _) => true
  | _ => false

/-- `true` iff the operand is a `*sqlExpr` (the closures produced by
`Raw`, `Func`/`In`/`NotIn`, and `InMultiple`). -/
def isSqlExprOperand : DbOperand → Bool
  | .expr (.rawE _ _) => true
  | .expr (.funcE _ _) => true
  | .expr (.inMultiple _) => true
  | _ => false

/-- `true` iff the operand is a `squirrel.Sqlizer` at all. -/
def isSqlizerOperand : DbOperand → Bool
  | .expr _ => true
  | _ => false

/-- `true` iff a `binaryExprNode` with these operands takes the
backward-compatible shorthand (string key, non-`Sqlizer` value;
src/db/cond.go lines 54-60). -/
def isShorthandPair : DbOperand → DbOperand → Bool
  | .colName _, .expr _ => false
  | .colName _, _ => true
  | _, _ => false

/-- `compileOperator` of the v1 variant (src/cond.go first document,
lines 81-89): the operator of a `*condExpr` (the comparison-leaf type
of that variant), the empty string for any other `Sqlizer`, `" ="`
otherwise. -/
def v1CompileOperator : DbOperand → String
  | .expr (.leaf op _) => " " ++ op
  | .expr _ => ""
  | _ => " ="

/-- C4 counterexample.  With a `*sqlExpr` right operand
(`Raw("now()")`), `compileOperator` emits the empty string, not the
equality operator: `Cond{"a": Raw("now()")}` compiles to `"a now()"`,
not `"a = now()"` (src/db/cond.go lines 100-102), even though the
right operand is not a comparison leaf. -/
theorem node_raw_operator_not_equality :
    exprToSql (.node (.colName "a") (.expr (Raw "now()" []))) = .ok ("a now()", [])
    ∧ compileOperator (.expr (Raw "now()" [])) = ""
    ∧ isCompLeaf (.expr (Raw "now()" [])) = false
    ∧ ("a now()" : String) ≠ "a = now()" := by
  refine ⟨?_, rfl, rfl, by decide⟩
  simp [exprToSql, nodeToSql, compileLeaf, Raw, compileOperator]

/-- C4 (amended).  For a binary comparison node not taken by the
backward-compatible shorthand, whose operands compile to `(ql, al)`
and `(rl, ar)` with `rl` non-empty, the emitted fragment is
`ql ++ <operator> ++ " " ++ rl` with arguments `al ++ ar`, where the
operator is: the operator carried by the right operand when it is a
comparison leaf; the empty string when the right operand is a
`*sqlExpr` (`Raw`/`Func`/`In`/`NotIn`/`InMultiple`) — in the v1
variant of `compileOperator`, when it is any other `Sqlizer`; and
equality (`" ="`) in every remaining case. -/
theorem node_operator_from_right (l r : DbOperand) (ql rl : String)
    (al ar : List GoValue)
    (hsh : isShorthandPair l r = false)
    (hl : compileLeaf l = .ok (ql, al)) (hr : compileLeaf r = .ok (rl, ar))
    (hne : rl ≠ "") :
    exprToSql (.node l r) = .ok (ql ++ compileOperator r ++ " " ++ rl, al ++ ar)
    ∧ (∀ o w, r = .expr (.leaf o w) → compileOperator r = " " ++ o)
    ∧ (isSqlExprOperand r = true → compileOperator r = "")
    ∧ (isCompLeaf r = false → isSqlExprOperand r = false → compileOperator r = " =")
    ∧ (∀ o w, r = .expr (.leaf o w) → v1CompileOperator r = " " ++ o)
    ∧ (isCompLeaf r = false → isSqlizerOperand r = true → v1CompileOperator r = "")
    ∧ (isSqlizerOperand r = false → v1CompileOperator r = " =") := by
  refine ⟨?_, ?_, ?_, ?_, ?_, ?_, ?_⟩
  · show exprToSql (.node l r) = _
    rw [exprToSql]
    cases l <;> cases r <;> simp_all [nodeToSql, isShorthandPair]
  · rintro o w rfl
    rfl
  · intro h
    cases r with
    | expr e => cases e <;> simp_all [isSqlExprOperand, compileOperator]
    | colName s => simp_all [isSqlExprOperand]
    | value v => simp_all [isSqlExprOperand]
  · intro h1 h2
    cases r with
    | expr e => cases e <;> simp_all [isCompLeaf, isSqlExprOperand, compileOperator]
    | colName s => rfl
    | value v => rfl
  · rintro o w rfl
    rfl
  · intro h1 h2
    cases r with
    | expr e => cases e <;> simp_all [isCompLeaf, v1CompileOperator]
    | colName s => simp_all [isSqlizerOperand]
    | value v => simp_all [isSqlizerOperand]
  · intro h
    cases r with
    | expr e => simp_all [isSqlizerOperand]
    | colName s => rfl
    | value v => rfl

/-- C4 witness: `Cond{"a": Gt(1)}` emits the `>` carried by the right
leaf: `"a > ?"`. -/
theorem node_operator_from_right_witness :
    exprToSql (.node (.colName "a") (.expr (Gt (.intV 1))))
      = .ok ("a" ++ compileOperator (.expr (Gt (.intV 1))) ++ " " ++ "?", [GoValue.intV 1])
    ∧ compileOperator (.expr (Gt (.intV 1))) = " >" := by
  have h := node_operator_from_right (.colName "a") (.expr (Gt (.intV 1)))
    "a" "?" [] [GoValue.intV 1] rfl (by simp [compileLeaf])
    (by simp [compileLeaf, Gt, leafValueSql]) (by decide)
  exact ⟨h.1, h.2.1 ">" (.intV 1) rfl⟩

theorem countMarkers_placeholders : ∀ n : Nat, countMarkers (placeholders n) = n
  | 0 => rfl
  | 1 => rfl
  | n + 2 => by
    have ih := countMarkers_placeholders (n + 1)
    show countMarkers ("?" ++ "," ++ placeholders (n + 1)) = n + 2
    rw [countMarkers_append, countMarkers_append, ih]
    have h1 : countMarkers "?" = 1 := rfl
    have h2 : countMarkers "," = 0 := rfl
    rw [h1, h2]
    omega

theorem tupleGroup_placeholders (t : List GoValue) :
    tupleGroup t = "(" ++ placeholders t.length ++ ")" := by
  rw [tupleGroup, placeholders, List.map_const']

theorem countMarkers_tupleGroup (t : List GoValue) :
    countMarkers (tupleGroup t) = t.length := by
  rw [tupleGroup_placeholders, countMarkers_append, countMarkers_append,
    countMarkers_placeholders]
  have c1 : countMarkers "(" = 0 := rfl
  have c2 : countMarkers ")" = 0 := rfl
  rw [c1, c2]
  omega

theorem inMultipleBody_spec : ∀ ts : List (List GoValue),
    inMultipleBody ts = (strJoin (ts.map tupleGroup) ",", ts.flatten)
  | [] => rfl
  | [t] => by simp [inMultipleBody, strJoin]
  | t :: t' :: ts => by
    have ih := inMultipleBody_spec (t' :: ts)
    rw [inMultipleBody, ih]
    simp [strJoin]

theorem countMarkers_strJoin_groups : ∀ ts : List (List GoValue),
    countMarkers (strJoin (ts.map tupleGroup) ",") = (ts.map List.length).sum
  | [] => rfl
  | [t] => by simp [strJoin, countMarkers_tupleGroup]
  | t :: t' :: ts => by
    have ih := countMarkers_strJoin_groups (t' :: ts)
    show countMarkers (tupleGroup t ++ "," ++ strJoin ((t' :: ts).map tupleGroup) ",") = _
    rw [countMarkers_append, countMarkers_append, ih, countMarkers_tupleGroup]
    have h2 : countMarkers "," = 0 := rfl
    rw [h2]
    simp [Nat.add_comm]

theorem in_frag_ne_empty (s : String) : ("IN (" ++ s ++ ")" : String) ≠ "" := by
  intro h
  have h2 := congrArg String.length h
  rw [String.length_append, String.length_append] at h2
  have h3 : ("IN (" : String).length = 4 := rfl
  have h4 : (")" : String).length = 1 := rfl
  have h5 : ("" : String).length = 0 := rfl
  rw [h3, h4, h5] at h2
  omega

theorem name_space_in_merge (name s x : String) :
    name ++ " " ++ ("IN (" ++ s ++ x) = name ++ " IN (" ++ s ++ x := by
  simp only [String.append_assoc]
  rw [← String.append_assoc " " "IN (" _]
  rfl

/-- C9.  `Cond{name: InMultiple(tuples)}` compiles to
`<name> IN ((?,…,?),…,(?,…,?))`: one parenthesized group per tuple
whose marker count equals that tuple's arity (tuples of differing
arity are accepted, with no error), and the argument list is the
tuples' elements flattened in row-major order. -/
theorem inMultiple_node_compiles (name : String) (tuples : List (List GoValue)) :
    exprToSql (.node (.colName name) (.expr (InMultiple tuples)))
      = .ok (name ++ " IN (" ++
          strJoin (tuples.map fun t => "(" ++ placeholders t.length ++ ")") "," ++ ")",
          tuples.flatten)
    ∧ (∀ t ∈ tuples, countMarkers ("(" ++ placeholders t.length ++ ")") = t.length)
    ∧ countMarkers ("IN (" ++
          strJoin (tuples.map fun t => "(" ++ placeholders t.length ++ ")") "," ++ ")")
        = (tuples.map List.length).sum := by
  have hgroups : (tuples.map fun t => "(" ++ placeholders t.length ++ ")")
      = tuples.map tupleGroup := by
    simp [tupleGroup_placeholders]
  refine ⟨?_, ?_, ?_⟩
  · have hleft : compileLeaf (.colName name) = .ok (name, []) := by
      simp [compileLeaf]
    have hright : compileLeaf (.expr (InMultiple tuples))
        = .ok ("IN (" ++ strJoin (tuples.map tupleGroup) "," ++ ")", tuples.flatten) := by
      rw [InMultiple, compileLeaf, exprToSql, inMultipleBody_spec]
    have hop : compileOperator (.expr (InMultiple tuples)) = "" := rfl
    rw [exprToSql]
    simp only [nodeToSql, hleft, hright]
    rw [hgroups]
    simp only [if_neg (in_frag_ne_empty (strJoin (List.map tupleGroup tuples) ","))]
    rw [hop]
    simp [name_space_in_merge]
  · intro t _
    rw [countMarkers_append, countMarkers_append, countMarkers_placeholders]
    have c1 : countMarkers "(" = 0 := rfl
    have c2 : countMarkers ")" = 0 := rfl
    rw [c1, c2]
    omega
  · rw [hgroups, countMarkers_append, countMarkers_append, countMarkers_strJoin_groups]
    have c1 : countMarkers "IN (" = 0 := rfl
    have c2 : countMarkers ")" = 0 := rfl
    rw [c1, c2]
    omega

end db

/-! ## The v1 `In`/`AnyOf` family (src/cond.go, first document) and C10 -/

/-- `strings.Repeat(s, n)`. -/
def strRepeat (s : String) : Nat → String
  | 0 => ""
  | n + 1 => s ++ strRepeat s n

theorem countMarkers_strRepeat_sepq : ∀ n : Nat, countMarkers (strRepeat ", ?" n) = n
  | 0 => rfl
  | n + 1 => by
    show countMarkers (", ?" ++ strRepeat ", ?" n) = n + 1
    rw [countMarkers_append, countMarkers_strRepeat_sepq n]
    have h1 : countMarkers ", ?" = 1 := rfl
    rw [h1]
    omega

namespace v1

/-- `ToSql` of the `Sqlizer` returned by the v1 `In`
(src/cond.go first document, lines 175-182; the generic variant in the
second document, lines 422-435, computes the same fragment and copies
the same arguments): the variadic arguments are bound one marker
each, `In()` with no arguments compiles to `IN ()`. -/
def In (v : List GoValue) : Except String (String × List GoValue) :=
  match v with
  | [] => .ok ("IN ()", [])
  | _ => .ok ("IN (?" ++ strRepeat ", ?" (v.length - 1) ++ ")", v)

/-- `ToSql` of the v1 `NotIn` (src/cond.go first document,
lines 185-192). -/
def NotIn (v : List GoValue) : Except String (String × List GoValue) :=
  match v with
  | [] => .ok ("NOT IN ()", [])
  | _ => .ok ("NOT IN (?" ++ strRepeat ", ?" (v.length - 1) ++ ")", v)

/-- `ToSql` of the v1 `AnyOf` (src/cond.go first document,
lines 195-214): a non-slice value is an error; a slice is expanded
element-wise, one marker per element. -/
def AnyOf (v : GoValue) : Except String (String × List GoValue) :=
  match v with
  | .sliceV [] => .ok ("IN ()", [])
  | .sliceV l => .ok ("IN (?" ++ strRepeat ", ?" (l.length - 1) ++ ")", l)
  | _ => .error "value must be a slice"

/-- `ToSql` of the v1 `NotAnyOf` (src/cond.go first document,
lines 217-235). -/
def NotAnyOf (v : GoValue) : Except String (String × List GoValue) :=
  match v with
  | .sliceV [] => .ok ("NOT IN ()", [])
  | .sliceV l => .ok ("NOT IN (?" ++ strRepeat ", ?" (l.length - 1) ++ ")", l)
  | _ => .error "value must be a slice"

/-- C10.  A non-empty slice passed to `In` as a single argument is not
expanded: the fragment carries exactly one positional marker and the
argument list is the one-element list holding the slice itself.
Element-wise expansion (one marker per element) happens only through
`AnyOf`/`NotAnyOf`, or by spreading the slice into `In`'s variadic
parameters. -/
theorem in_single_slice_not_expanded (l : List GoValue) (h : l ≠ []) :
    In [GoValue.sliceV l] = .ok ("IN (?)", [GoValue.sliceV l])
    ∧ countMarkers "IN (?)" = 1
    ∧ AnyOf (GoValue.sliceV l)
        = .ok ("IN (?" ++ strRepeat ", ?" (l.length - 1) ++ ")", l)
    ∧ countMarkers ("IN (?" ++ strRepeat ", ?" (l.length - 1) ++ ")") = l.length
    ∧ In l = .ok ("IN (?" ++ strRepeat ", ?" (l.length - 1) ++ ")", l)
    ∧ NotAnyOf (GoValue.sliceV l)
        = .ok ("NOT IN (?" ++ strRepeat ", ?" (l.length - 1) ++ ")", l) := by
  have hlen : 0 < l.length := List.length_pos.mpr h
  have hcount : countMarkers ("IN (?" ++ strRepeat ", ?" (l.length - 1) ++ ")")
      = l.length := by
    rw [countMarkers_append, countMarkers_append, countMarkers_strRepeat_sepq]
    have c1 : countMarkers "IN (?" = 1 := rfl
    have c2 : countMarkers ")" = 0 := rfl
    rw [c1, c2]
    omega
  obtain ⟨a, l', rfl⟩ : ∃ a l', l = a :: l' := by
    cases l with
    | nil => exact absurd rfl h
    | cons a l' => exact ⟨a, l', rfl⟩
  exact ⟨rfl, rfl, rfl, hcount, rfl, rfl⟩

/-- C10 witness: the slice `[1, 2]`. -/
theorem in_single_slice_not_expanded_witness :
    In [GoValue.sliceV [GoValue.intV 1, GoValue.intV 2]]
      = .ok ("IN (?)", [GoValue.sliceV [GoValue.intV 1, GoValue.intV 2]])
    ∧ AnyOf (GoValue.sliceV [GoValue.intV 1, GoValue.intV 2])
      = .ok ("IN (?" ++ strRepeat ", ?" 1 ++ ")", [GoValue.intV 1, GoValue.intV 2]) := by
  have h := in_single_slice_not_expanded [GoValue.intV 1, GoValue.intV 2] (by simp)
  exact ⟨h.1, h.2.2.1⟩

end v1

/-! ## C2: the marker/argument correspondence

Following the specification's reading of compilation — a fragment is
an interleaving of literal text and positional markers, and "the
emitted argument list order must exactly match the left-to-right,
depth-first order in which positional markers appear in the fragment
text" — each expression is assigned its depth-first token stream: a
list of literal-text tokens and marker tokens (a `Raw` node
contributes its fragment and arguments as one opaque token, since the
compiler passes both through unchanged).  The refinement theorem
states that the compiler's output is exactly the rendering of this
stream, with the arguments extracted in stream order. -/

namespace db

/-- A token of a compiled fragment: literal text, a positional marker
bound to one value, or a `Raw` passthrough. -/
inductive Tok where
  | txt (s : String)
  | mark (v : GoValue)
  | rawT (s : String) (vs : List GoValue)

/-- The text a token contributes to the fragment. -/
def Tok.render : Tok → String
  | .txt s => s
  | .mark _ => "?"
  | .rawT s _ => s

/-- The arguments a token contributes, in order. -/
def Tok.argsOf : Tok → List GoValue
  | .txt _ => []
  | .mark v => [v]
  | .rawT _ vs => vs

/-- The fragment rendered by a token stream. -/
def renderToks : List Tok → String
  | [] => ""
  | t :: ts => t.render ++ renderToks ts

/-- The argument list of a token stream, in stream order. -/
def argsToks : List Tok → List GoValue
  | [] => []
  | t :: ts => t.argsOf ++ argsToks ts

/-- A token is marker-consistent when its literal text carries no `?`
characters and a `Raw` passthrough carries exactly as many markers as
arguments. -/
def Tok.wf : Tok → Bool
  | .txt s => countMarkers s == 0
  | .mark _ => true
  | .rawT s vs => countMarkers s == vs.length

/-- A token stream is marker-consistent when all its tokens are. -/
def wfToks (ts : List Tok) : Bool := ts.all Tok.wf

/-- Markers interleaved with commas: the token stream of
`placeholders n`. -/
def markToks : List GoValue → List Tok
  | [] => []
  | [v] => [.mark v]
  | v :: v' :: vs => .mark v :: .txt "," :: markToks (v' :: vs)

/-- Token streams joined by a separator, mirroring `strJoin`. -/
def joinToks (sep : String) : List (List Tok) → List Tok
  | [] => []
  | [p] => p
  | p :: p' :: ps => p ++ .txt sep :: joinToks sep (p' :: ps)

/-- Token stream of a single-entry `squirrel.Eq`. -/
def sqEqToks (name : String) (v : GoValue) : List Tok :=
  match sqEqDeref v with
  | .nilV => [.txt (name ++ " IS NULL")]
  | .sliceV [] => [.txt sqlFalse]
  | .sliceV l => .txt (name ++ " IN (") :: (markToks l ++ [.txt ")"])
  | w => [.txt (name ++ " = "), .mark w]

mutual

/-- The depth-first token stream of an expression, case for case
parallel to `exprToSql`. -/
def exprToks : DbExpr → List Tok
  | .leaf _ .nilV => []
  | .leaf _ v => [.mark v]
  | .rawE s args => [.rawT s args]
  | .funcE name [] => [.txt (name ++ " ()")]
  | .funcE name (p :: ps) =>
    .txt (name ++ " (") :: (paramToks (p :: ps) ++ [.txt ")"])
  | .inMultiple tuples => .txt "IN (" :: (tuplesToks tuples ++ [.txt ")"])
  | .node l r => nodeToks l r
  | .andE [] => [.txt sqlTrue]
  | .andE (c :: cs) =>
    match collectConj (c :: cs) with
    | [] => []
    | p :: ps => .txt "(" :: (joinToks " AND " (p :: ps) ++ [.txt ")"])
  | .orE [] => [.txt sqlFalse]
  | .orE (c :: cs) =>
    match collectConj (c :: cs) with
    | [] => []
    | p :: ps => .txt "(" :: (joinToks " OR " (p :: ps) ++ [.txt ")"])
  | .condE ps => condToks ps
  termination_by e => sizeOf e

/-- Token stream of a binary comparison node (parallel to
`nodeToSql`): the operator text separates the left and right streams;
when the right fragment renders empty only the left stream and the
operator are kept. -/
def nodeToks : DbOperand → DbOperand → List Tok
  | .colName s, .colName t => sqEqToks s (.strV t)
  | .colName s, .value v => sqEqToks s v
  | l, r =>
    if renderToks (leafToks r) = "" then leafToks l ++ [.txt (compileOperator r)]
    else leafToks l ++ .txt (compileOperator r ++ " ") :: leafToks r
  termination_by l r => sizeOf l + sizeOf r
  decreasing_by
    · simp_wf
      have := dbOperand_sizeOf_pos l
      omega
    · simp_wf
      have := dbOperand_sizeOf_pos r
      omega
    · simp_wf
      have := dbOperand_sizeOf_pos r
      omega

/-- Token stream of an operand in leaf position (parallel to
`compileLeaf`): generic `Sqlizer`s are parenthesized. -/
def leafToks : DbOperand → List Tok
  | .colName s => [.txt s]
  | .value v => [.mark v]
  | .expr (.leaf op v) => exprToks (.leaf op v)
  | .expr (.rawE s a) => [.rawT s a]
  | .expr (.funcE n ps) => exprToks (.funcE n ps)
  | .expr (.inMultiple ts) => exprToks (.inMultiple ts)
  | .expr e => .txt "(" :: (exprToks e ++ [.txt ")"])
  termination_by o => sizeOf o
  decreasing_by all_goals simp_wf

/-- Token streams of `Func` parameters, joined by `", "`. -/
def paramToks : List DbOperand → List Tok
  | [] => []
  | [p] => paramTok p
  | p :: p' :: ps => paramTok p ++ .txt ", " :: paramToks (p' :: ps)
  termination_by ps => sizeOf ps

/-- Token stream of one `Func` parameter: a `Sqlizer` is spliced, any
other value becomes one marker. -/
def paramTok : DbOperand → List Tok
  | .expr e => exprToks e
  | .colName s => [.mark (.strV s)]
  | .value v => [.mark v]
  termination_by p => sizeOf p

/-- Token streams of the `InMultiple` tuple groups, comma-joined. -/
def tuplesToks : List (List GoValue) → List Tok
  | [] => []
  | [t] => groupToks t
  | t :: t' :: ts => groupToks t ++ .txt "," :: tuplesToks (t' :: ts)
  termination_by ts => sizeOf ts

/-- Token stream of one parenthesized tuple group. -/
def groupToks (t : List GoValue) : List Tok :=
  .txt "(" :: (markToks t ++ [.txt ")"])

/-- The token streams of the conjuncts whose fragments render
non-empty, in order. -/
def collectConj : List DbExpr → List (List Tok)
  | [] => []
  | c :: cs =>
    if renderToks (exprToks c) = "" then collectConj cs
    else exprToks c :: collectConj cs
  termination_by cs => sizeOf cs

/-- Token stream of a `Cond`: node streams concatenated with no
separator. -/
def condToks : List (DbOperand × DbOperand) → List Tok
  | [] => []
  | (l, r) :: ps => nodeToks l r ++ condToks ps
  termination_by ps => sizeOf ps

end

end db

namespace db

theorem renderToks_append (a b : List Tok) :
    renderToks (a ++ b) = renderToks a ++ renderToks b := by
  induction a with
  | nil => simp [renderToks]
  | cons t ts ih => simp [renderToks, ih, String.append_assoc]

theorem argsToks_append (a b : List Tok) :
    argsToks (a ++ b) = argsToks a ++ argsToks b := by
  induction a with
  | nil => simp [argsToks]
  | cons t ts ih => simp [argsToks, ih]

theorem renderToks_markToks : ∀ l : List GoValue,
    renderToks (markToks l) = placeholders l.length
  | [] => rfl
  | [v] => rfl
  | v :: v' :: vs => by
    have ih := renderToks_markToks (v' :: vs)
    rw [markToks, renderToks, renderToks, ih]
    show "?" ++ ("," ++ placeholders (v' :: vs).length) = placeholders (v :: v' :: vs).length
    rw [← String.append_assoc]
    rfl

theorem argsToks_markToks : ∀ l : List GoValue, argsToks (markToks l) = l
  | [] => rfl
  | [v] => rfl
  | v :: v' :: vs => by
    have ih := argsToks_markToks (v' :: vs)
    rw [markToks, argsToks, argsToks, ih]
    rfl

theorem renderToks_joinToks (sep : String) : ∀ ps : List (List Tok),
    renderToks (joinToks sep ps) = strJoin (ps.map renderToks) sep
  | [] => rfl
  | [p] => by simp [joinToks, strJoin]
  | p :: p' :: ps => by
    have ih := renderToks_joinToks sep (p' :: ps)
    rw [joinToks, renderToks_append, renderToks, ih]
    show renderToks p ++ (sep ++ strJoin ((p' :: ps).map renderToks) sep) = _
    rw [List.map_cons]
    show _ = renderToks p ++ sep ++ strJoin (renderToks p' :: ps.map renderToks) sep
    rw [String.append_assoc]

theorem argsToks_joinToks (sep : String) : ∀ ps : List (List Tok),
    argsToks (joinToks sep ps) = (ps.map argsToks).flatten
  | [] => rfl
  | [p] => by simp [joinToks, argsToks]
  | p :: p' :: ps => by
    have ih := argsToks_joinToks sep (p' :: ps)
    rw [joinToks, argsToks_append, argsToks, ih]
    simp [argsToks, Tok.argsOf]

theorem groupToks_render (t : List GoValue) :
    renderToks (groupToks t) = tupleGroup t := by
  rw [groupToks, renderToks, renderToks_append, renderToks_markToks,
    tupleGroup_placeholders]
  show "(" ++ (placeholders t.length ++ (")" ++ "")) = _
  rw [String.append_empty, ← String.append_assoc]

theorem groupToks_args (t : List GoValue) : argsToks (groupToks t) = t := by
  rw [groupToks, argsToks, argsToks_append, argsToks_markToks]
  simp [argsToks, Tok.argsOf]

theorem tuplesToks_spec : ∀ ts : List (List GoValue),
    renderToks (tuplesToks ts) = (inMultipleBody ts).1
    ∧ argsToks (tuplesToks ts) = (inMultipleBody ts).2
  | [] => by
    constructor <;> rw [tuplesToks, inMultipleBody] <;> rfl
  | [t] => by
    constructor
    · rw [tuplesToks, groupToks_render, inMultipleBody]
    · rw [tuplesToks, groupToks_args, inMultipleBody]
  | t :: t' :: ts => by
    have ih := tuplesToks_spec (t' :: ts)
    constructor
    · rw [tuplesToks, renderToks_append, renderToks, ih.1, groupToks_render,
        inMultipleBody]
      simp [Tok.render, String.append_assoc]
    · rw [tuplesToks, argsToks_append, argsToks, ih.2, groupToks_args, inMultipleBody]
      rfl

theorem sqEqToks_pair (name : String) (v : GoValue) :
    sqEqSingle name v = (renderToks (sqEqToks name v), argsToks (sqEqToks name v)) := by
  rw [sqEqSingle, sqEqToks]
  cases sqEqDeref v with
  | nilV => simp [renderToks, argsToks, Tok.render, Tok.argsOf]
  | sliceV l =>
    cases l with
    | nil => simp [renderToks, argsToks, Tok.render, Tok.argsOf]
    | cons a vs =>
      rw [renderToks, renderToks_append, renderToks_markToks, argsToks,
        argsToks_append, argsToks_markToks]
      simp [renderToks, argsToks, Tok.render, Tok.argsOf, ← String.append_assoc]
  | intV n =>
    simp [renderToks, argsToks, Tok.render, Tok.argsOf]
    rw [String.append_assoc]
    rfl
  | strV s =>
    simp [renderToks, argsToks, Tok.render, Tok.argsOf]
    rw [String.append_assoc]
    rfl
  | boolV b =>
    simp [renderToks, argsToks, Tok.render, Tok.argsOf]
    rw [String.append_assoc]
    rfl
  | defaultV =>
    simp [renderToks, argsToks, Tok.render, Tok.argsOf]
    rw [String.append_assoc]
    rfl
  | reflectV w =>
    simp [renderToks, argsToks, Tok.render, Tok.argsOf]
    rw [String.append_assoc]
    rfl
  | ptrV p =>
    simp [renderToks, argsToks, Tok.render, Tok.argsOf]
    rw [String.append_assoc]
    rfl
  | structV fs =>
    simp [renderToks, argsToks, Tok.render, Tok.argsOf]
    rw [String.append_assoc]
    rfl
  | mapV es =>
    simp [renderToks, argsToks, Tok.render, Tok.argsOf]
    rw [String.append_assoc]
    rfl

end db

namespace db

theorem renderToks_paramToks : ∀ ps : List DbOperand,
    renderToks (paramToks ps) = strJoin (ps.map fun p => renderToks (paramTok p)) ", "
  | [] => by rw [paramToks]; rfl
  | [p] => by rw [paramToks]; rfl
  | p :: p' :: ps => by
    have ih := renderToks_paramToks (p' :: ps)
    rw [paramToks, renderToks_append, renderToks, ih]
    show renderToks (paramTok p) ++
        (", " ++ strJoin ((p' :: ps).map fun q => renderToks (paramTok q)) ", ") = _
    rw [List.map_cons, List.map_cons]
    show _ = renderToks (paramTok p) ++ ", " ++
        strJoin (renderToks (paramTok p') :: ps.map fun q => renderToks (paramTok q)) ", "
    rw [String.append_assoc]

theorem argsToks_paramToks : ∀ ps : List DbOperand,
    argsToks (paramToks ps) = (ps.map fun p => argsToks (paramTok p)).flatten
  | [] => by rw [paramToks]; rfl
  | [p] => by rw [paramToks]; simp
  | p :: p' :: ps => by
    have ih := argsToks_paramToks (p' :: ps)
    rw [paramToks, argsToks_append, argsToks, ih]
    simp [Tok.argsOf]

theorem nodeGeneralAux (l r : DbOperand) (hsh : isShorthandPair l r = false)
    (hl : compileLeaf l = .ok (renderToks (leafToks l), argsToks (leafToks l)))
    (hr : compileLeaf r = .ok (renderToks (leafToks r), argsToks (leafToks r))) :
    nodeToSql l r = .ok (renderToks (nodeToks l r), argsToks (nodeToks l r)) := by
  cases l <;> cases r <;>
    first
      | (simp [isShorthandPair] at hsh
         done)
      | (simp only [nodeToSql, nodeToks, hl, hr]
         split <;>
           simp [renderToks_append, argsToks_append, renderToks, argsToks,
             Tok.render, Tok.argsOf, String.append_assoc])

end db

namespace db

mutual

/-- The compiler output is the rendering of the depth-first token
stream, with the arguments read off in stream order. -/
theorem exprToSql_toks : ∀ e : DbExpr,
    exprToSql e = .ok (renderToks (exprToks e), argsToks (exprToks e))
  | .leaf op v => by
    cases v <;>
      simp [exprToSql, exprToks, leafValueSql, renderToks, argsToks,
        Tok.render, Tok.argsOf]
  | .rawE s a => by
    simp [exprToSql, exprToks, renderToks, argsToks, Tok.render, Tok.argsOf]
  | .funcE name [] => by
    simp [exprToSql, exprToks, renderToks, argsToks, Tok.render, Tok.argsOf]
  | .funcE name (p :: ps) => by
    have h := funcParams_toks name 0 (p :: ps)
    rw [exprToSql, h, exprToks, renderToks, renderToks_append, argsToks,
      argsToks_append, renderToks_paramToks, argsToks_paramToks]
    simp [renderToks, argsToks, Tok.render, Tok.argsOf, String.append_assoc]
  | .inMultiple tuples => by
    have h := tuplesToks_spec tuples
    rw [exprToSql, exprToks, renderToks, renderToks_append, argsToks,
      argsToks_append, h.1, h.2]
    simp [renderToks, argsToks, Tok.render, Tok.argsOf, String.append_assoc]
  | .node l r => by
    rw [exprToSql, exprToks]
    exact nodeToSql_toks l r
  | .andE [] => by
    simp [exprToSql, exprToks, renderToks, argsToks, Tok.render, Tok.argsOf]
  | .andE (c :: cs) => by
    have h := conjParts_toks (c :: cs)
    rw [exprToSql, h, exprToks]
    cases hC : collectConj (c :: cs) with
    | nil => simp [renderToks, argsToks]
    | cons p Ps =>
      rw [renderToks, renderToks_append, renderToks_joinToks, argsToks,
        argsToks_append, argsToks_joinToks]
      simp [renderToks, argsToks, Tok.render, Tok.argsOf, String.append_assoc]
  | .orE [] => by
    simp [exprToSql, exprToks, renderToks, argsToks, Tok.render, Tok.argsOf]
  | .orE (c :: cs) => by
    have h := conjParts_toks (c :: cs)
    rw [exprToSql, h, exprToks]
    cases hC : collectConj (c :: cs) with
    | nil => simp [renderToks, argsToks]
    | cons p Ps =>
      rw [renderToks, renderToks_append, renderToks_joinToks, argsToks,
        argsToks_append, argsToks_joinToks]
      simp [renderToks, argsToks, Tok.render, Tok.argsOf, String.append_assoc]
  | .condE ps => by
    rw [exprToSql, exprToks]
    exact condNodes_toks 0 ps
  termination_by e => sizeOf e

theorem nodeToSql_toks : ∀ l r : DbOperand,
    nodeToSql l r = .ok (renderToks (nodeToks l r), argsToks (nodeToks l r))
  | .colName s, .colName t => by
    rw [nodeToSql, nodeToks, sqEqToks_pair]
  | .colName s, .value v => by
    rw [nodeToSql, nodeToks, sqEqToks_pair]
  | .colName s, .expr e =>
    nodeGeneralAux _ _ rfl (compileLeaf_toks (.colName s)) (compileLeaf_toks (.expr e))
  | .value v, r =>
    nodeGeneralAux _ _ rfl (compileLeaf_toks (.value v)) (compileLeaf_toks r)
  | .expr e, r =>
    nodeGeneralAux _ _ rfl (compileLeaf_toks (.expr e)) (compileLeaf_toks r)
  termination_by l r => sizeOf l + sizeOf r
  decreasing_by
    all_goals simp_wf
    all_goals first
      | omega
      | (have h1 := dbOperand_sizeOf_pos r
         omega)

theorem compileLeaf_toks : ∀ o : DbOperand,
    compileLeaf o = .ok (renderToks (leafToks o), argsToks (leafToks o))
  | .colName s => by
    simp [compileLeaf, leafToks, renderToks, argsToks, Tok.render, Tok.argsOf]
  | .value v => by
    simp [compileLeaf, leafToks, renderToks, argsToks, Tok.render, Tok.argsOf]
  | .expr (.leaf op v) => by
    rw [compileLeaf, leafToks, ← exprToSql_toks (.leaf op v), exprToSql]
  | .expr (.rawE s a) => by
    simp [compileLeaf, leafToks, renderToks, argsToks, Tok.render, Tok.argsOf]
  | .expr (.funcE n ps) => by
    rw [compileLeaf, leafToks]
    exact exprToSql_toks (.funcE n ps)
  | .expr (.inMultiple ts) => by
    rw [compileLeaf, leafToks]
    exact exprToSql_toks (.inMultiple ts)
  | .expr (.node l r) => by
    have he := exprToSql_toks (.node l r)
    simp only [compileLeaf, leafToks, he]
    simp [renderToks, renderToks_append, argsToks, argsToks_append,
      Tok.render, Tok.argsOf, String.append_assoc]
  | .expr (.andE cs) => by
    have he := exprToSql_toks (.andE cs)
    simp only [compileLeaf, leafToks, he]
    simp [renderToks, renderToks_append, argsToks, argsToks_append,
      Tok.render, Tok.argsOf, String.append_assoc]
  | .expr (.orE cs) => by
    have he := exprToSql_toks (.orE cs)
    simp only [compileLeaf, leafToks, he]
    simp [renderToks, renderToks_append, argsToks, argsToks_append,
      Tok.render, Tok.argsOf, String.append_assoc]
  | .expr (.condE ps) => by
    have he := exprToSql_toks (.condE ps)
    simp only [compileLeaf, leafToks, he]
    simp [renderToks, renderToks_append, argsToks, argsToks_append,
      Tok.render, Tok.argsOf, String.append_assoc]
  termination_by o => sizeOf o

theorem funcParams_toks : ∀ (name : String) (i : Nat) (ps : List DbOperand),
    funcParams name i ps = .ok (ps.map fun p => renderToks (paramTok p),
      (ps.map fun p => argsToks (paramTok p)).flatten)
  | _, _, [] => by simp [funcParams]
  | name, i, .expr e :: ps => by
    have he := exprToSql_toks e
    have ih := funcParams_toks name (i + 1) ps
    simp only [funcParams, he, ih]
    simp [paramTok]
  | name, i, .colName s :: ps => by
    have ih := funcParams_toks name (i + 1) ps
    simp only [funcParams, ih]
    simp [paramTok, renderToks, argsToks, Tok.render, Tok.argsOf]
  | name, i, .value v :: ps => by
    have ih := funcParams_toks name (i + 1) ps
    simp only [funcParams, ih]
    simp [paramTok, renderToks, argsToks, Tok.render, Tok.argsOf]
  termination_by _ _ ps => sizeOf ps

theorem conjParts_toks : ∀ cs : List DbExpr,
    conjParts cs = .ok ((collectConj cs).map renderToks,
      ((collectConj cs).map argsToks).flatten)
  | [] => by simp [conjParts, collectConj]
  | c :: cs => by
    have hc := exprToSql_toks c
    have ih := conjParts_toks cs
    simp only [conjParts, collectConj, hc, ih]
    split <;> simp
  termination_by cs => sizeOf cs

theorem condNodes_toks : ∀ (i : Nat) (ps : List (DbOperand × DbOperand)),
    condNodes i ps = .ok (renderToks (condToks ps), argsToks (condToks ps))
  | _, [] => by simp [condNodes, condToks, renderToks, argsToks]
  | i, (l, r) :: ps => by
    have hn := nodeToSql_toks l r
    have ih := condNodes_toks (i + 1) ps
    simp only [condNodes, hn, ih, condToks]
    simp [renderToks_append, argsToks_append]
  termination_by _ ps => sizeOf ps

end

end db

namespace db

/-- On a marker-consistent token stream, the rendered fragment carries
exactly one `?` per argument. -/
theorem countMarkers_renderToks : ∀ ts : List Tok, wfToks ts = true →
    countMarkers (renderToks ts) = (argsToks ts).length
  | [], _ => rfl
  | t :: ts, h => by
    rw [wfToks, List.all_cons, Bool.and_eq_true] at h
    have ih := countMarkers_renderToks ts h.2
    rw [renderToks, argsToks, countMarkers_append, List.length_append, ih]
    cases t with
    | txt s =>
      have hw : countMarkers s = 0 := by
        have h1 := h.1
        simp [Tok.wf] at h1
        exact h1
      simp [Tok.render, Tok.argsOf, hw]
    | mark v =>
      have c : countMarkers "?" = 1 := rfl
      simp [Tok.render, Tok.argsOf, c]
    | rawT s vs =>
      have hw : countMarkers s = vs.length := by
        have h1 := h.1
        simp [Tok.wf] at h1
        exact h1
      simp [Tok.render, Tok.argsOf, hw]

/-- C2 counterexample.  `Raw` passes its fragment and argument list
through unchanged (src/db/cond.go lines 244-248), so
`Raw("now()", 1)` compiles to a fragment with zero positional markers
but one argument. -/
theorem raw_marker_count_mismatch :
    exprToSql (Raw "now()" [GoValue.intV 1]) = .ok ("now()", [GoValue.intV 1])
    ∧ countMarkers "now()" = 0
    ∧ ([GoValue.intV 1] : List GoValue).length = 1
    ∧ (0 : Nat) ≠ 1 := by
  exact ⟨by simp [Raw, exprToSql], rfl, rfl, by decide⟩

/-- C2 (amended).  For every expression built from the exposed
constructors, compilation succeeds and returns exactly the rendering
of the expression's depth-first token stream, with the argument list
read off the same stream in order — so arguments appear in the
left-to-right, depth-first order of their markers.  Provided the
stream is marker-consistent (every `Raw` fragment carries exactly as
many `?` as it has arguments, and no literal `?` occurs in column
names, operators or function names), the number of positional markers
in the fragment equals the length of the argument list. -/
theorem exprToSql_marker_invariant (e : DbExpr) :
    exprToSql e = .ok (renderToks (exprToks e), argsToks (exprToks e))
    ∧ (wfToks (exprToks e) = true →
        countMarkers (renderToks (exprToks e)) = (argsToks (exprToks e)).length) := by
  exact ⟨exprToSql_toks e, fun h => countMarkers_renderToks (exprToks e) h⟩

/-- C2 witness: `In(1, 2)` compiles to its token stream's rendering
with matching marker and argument counts. -/
theorem exprToSql_marker_invariant_witness :
    exprToSql (In [.value (.intV 1), .value (.intV 2)])
      = .ok (renderToks (exprToks (In [.value (.intV 1), .value (.intV 2)])),
             argsToks (exprToks (In [.value (.intV 1), .value (.intV 2)])))
    ∧ countMarkers (renderToks (exprToks (In [.value (.intV 1), .value (.intV 2)])))
      = (argsToks (exprToks (In [.value (.intV 1), .value (.intV 2)]))).length := by
  have h := exprToSql_marker_invariant (In [.value (.intV 1), .value (.intV 2)])
  refine ⟨h.1, h.2 ?_⟩
  simp [In, Func, exprToks, paramToks, paramTok, wfToks, Tok.wf, countMarkers]

end db

/-! ## C5: the type-index builder (`reflectx`)

The `reflectx` package's implementation is not among the sources —
only its tests (`src/internal/reflectx/reflect_test.go`) are — so the
indexer is modelled from the specification (§4.1). -/

/-- Modelled from the spec: a record type shape for the `reflectx`
`TypeIndexer` (whose implementation is missing from the sources); a
type is either non-composed (`prim`) or a record with an ordered list
of fields, each carrying its declared name, its optional explicit
name annotation, and its own type. -/
inductive RecType where
  | prim
  | comp (fields : List (String × Option String × RecType))

/-- Modelled from the spec: a discovered field sighting — its resolved
external name, its traversal path of field offsets from the root, and
the depth at which it was discovered. -/
structure SightEntry where
  name : String
  path : List Nat
  depth : Nat
  deriving DecidableEq, Repr

mutual

/-- Modelled from the spec: the sightings contributed by one declared
field (whose traversal path is already extended with its own offset).
A composed field with no explicit name annotation has its own fields
flattened into the parent namespace at depth+1; any other field is
recorded under its annotation's name, or `nameTransform` of its
declared name. -/
def collectField (tr : String → String) (decl : String) (ann : Option String) :
    RecType → List Nat → Nat → List SightEntry
  | t, path, d =>
    match ann, t with
    | none, .comp fs => collectFields tr fs path 0 (d + 1)
    | _, _ => [⟨ann.getD (tr decl), path, d⟩]
  termination_by structural t => t

/-- Modelled from the spec: the depth-first traversal of a field
list. -/
def collectFields (tr : String → String) :
    List (String × Option String × RecType) → List Nat → Nat → Nat → List SightEntry
  | [], _, _, _ => []
  | (decl, ann, t) :: rest, path, i, d =>
    collectField tr decl ann t (path ++ [i]) d ++ collectFields tr rest path (i + 1) d
  termination_by structural l => l

end

/-- Modelled from the spec: all sightings of a type, in depth-first
order, the root's own fields at depth 0. -/
def collect (tr : String → String) : RecType → List SightEntry
  | .prim => []
  | .comp fs => collectFields tr fs [] 0 0

def lookupAssoc {β : Type} : List (String × β) → String → Option β
  | [], _ => none
  | (k, v) :: rest, n => if k == n then some v else lookupAssoc rest n

def updateAssoc {β : Type} : List (String × β) → String → β → List (String × β)
  | [], _, _ => []
  | (k, v) :: rest, n, w => if k == n then (k, w) :: rest else (k, v) :: updateAssoc rest n w

/-- Modelled from the spec: the effect of one more sighting of a name
on that name's index slot: first sighting wins outright; a strictly
shallower later sighting replaces the earlier one; an equal-depth
sighting marks the name ambiguous (excluded); a deeper sighting is
ignored. -/
def stepPair (st : SightEntry × Bool) (e : SightEntry) : SightEntry × Bool :=
  if e.depth < st.1.depth then (e, false)
  else if e.depth = st.1.depth then (st.1, true)
  else st

def resolveStep (st : Option (SightEntry × Bool)) (e : SightEntry) :
    Option (SightEntry × Bool) :=
  match st with
  | none => some (e, false)
  | some st => some (stepPair st e)

/-- Modelled from the spec: fold one sighting into the name index. -/
def addSighting (acc : List (String × SightEntry × Bool)) (e : SightEntry) :
    List (String × SightEntry × Bool) :=
  match lookupAssoc acc e.name with
  | none => acc ++ [(e.name, e, false)]
  | some st => updateAssoc acc e.name (stepPair st e)

/-- Modelled from the spec: the name index of a type, built by folding
the depth-first sightings. -/
def buildIndex (tr : String → String) (t : RecType) : List (String × SightEntry × Bool) :=
  (collect tr t).foldl addSighting []

/-- Modelled from the spec: `TypeIndex.GetByPath(name)` — the resolved
field for a name, absent when the name is unknown or ambiguous. -/
def GetByPath (tr : String → String) (t : RecType) (n : String) : Option SightEntry :=
  match lookupAssoc (buildIndex tr t) n with
  | some (e, false) => some e
  | _ => none

theorem lookup_update_self {β : Type} (l : List (String × β)) (n : String) (w : β)
    (h : (lookupAssoc l n).isSome) : lookupAssoc (updateAssoc l n w) n = some w := by
  induction l with
  | nil => simp [lookupAssoc] at h
  | cons kv rest ih =>
    obtain ⟨k, v⟩ := kv
    by_cases hk : k == n
    · simp [lookupAssoc, updateAssoc, hk]
    · rw [lookupAssoc, if_neg hk] at h
      rw [updateAssoc, if_neg hk, lookupAssoc, if_neg hk]
      exact ih h

theorem lookup_update_ne {β : Type} (l : List (String × β)) (n m : String) (w : β)
    (h : ¬(n == m)) : lookupAssoc (updateAssoc l n w) m = lookupAssoc l m := by
  induction l with
  | nil => rfl
  | cons kv rest ih =>
    obtain ⟨k, v⟩ := kv
    by_cases hk : k == n
    · have hkm : ¬(k == m) := by
        intro hc
        have hkn : k = n := beq_iff_eq.mp hk
        exact h (hkn ▸ hc)
      rw [updateAssoc, if_pos hk, lookupAssoc, if_neg hkm, lookupAssoc, if_neg hkm]
    · rw [updateAssoc, if_neg hk, lookupAssoc, lookupAssoc]
      by_cases hkm : k == m
      · simp [hkm]
      · simp [hkm, ih]

theorem lookup_append_one {β : Type} (l : List (String × β)) (k n : String) (v : β) :
    lookupAssoc (l ++ [(k, v)]) n =
      match lookupAssoc l n with
      | some x => some x
      | none => if k == n then some v else none := by
  induction l with
  | nil => rfl
  | cons kv rest ih =>
    obtain ⟨k', v'⟩ := kv
    by_cases hk : k' == n
    · simp [lookupAssoc, hk]
    · simp only [List.cons_append, lookupAssoc, if_neg hk]
      exact ih

theorem lookup_addSighting (acc : List (String × SightEntry × Bool)) (e : SightEntry)
    (n : String) :
    lookupAssoc (addSighting acc e) n =
      if e.name == n then resolveStep (lookupAssoc acc e.name) e
      else lookupAssoc acc n := by
  rw [addSighting]
  cases hacc : lookupAssoc acc e.name with
  | none =>
    rw [lookup_append_one]
    by_cases hn : e.name == n
    · have : n = e.name := (beq_iff_eq.mp hn).symm
      subst this
      rw [hacc]
      simp [resolveStep, hn]
    · simp [hn]
      cases lookupAssoc acc n <;> rfl
  | some st =>
    by_cases hn : e.name == n
    · have : n = e.name := (beq_iff_eq.mp hn).symm
      subst this
      rw [if_pos hn, lookup_update_self _ _ _ (by rw [hacc]; rfl)]
      rfl
    · rw [if_neg hn, lookup_update_ne _ _ _ _ hn]

theorem lookup_fold (es : List SightEntry) (acc : List (String × SightEntry × Bool))
    (n : String) :
    lookupAssoc (es.foldl addSighting acc) n =
      (es.filter fun e => e.name == n).foldl resolveStep (lookupAssoc acc n) := by
  induction es generalizing acc with
  | nil => rfl
  | cons e es ih =>
    rw [List.foldl_cons, ih, List.filter_cons]
    by_cases hn : e.name == n
    · have : e.name = n := beq_iff_eq.mp hn
      simp only [hn, if_pos, List.foldl_cons]
      rw [lookup_addSighting, if_pos hn, this]
    · simp only [hn, Bool.false_eq_true, if_neg, reduceIte]
      rw [lookup_addSighting, if_neg hn]

/-- C5.  Modelled from the spec (the `reflectx` implementation is
absent from the sources): when a name is sighted exactly twice, once
at depth 1 and once at depth 2 (in either traversal order), the index
resolves it to the depth-1 sighting; when its two sightings are at
equal depth, the name is excluded and `GetByPath` returns absent —
not an error, and neither field. -/
theorem getByPath_shadowing (tr : String → String) (t : RecType) (n : String)
    (e1 e2 : SightEntry)
    (hf : ((collect tr t).filter fun e => e.name == n) = [e1, e2]) :
    ((e1.depth = 1 ∧ e2.depth = 2) → GetByPath tr t n = some e1)
    ∧ ((e1.depth = 2 ∧ e2.depth = 1) → GetByPath tr t n = some e2)
    ∧ (e1.depth = e2.depth → GetByPath tr t n = none) := by
  have hbase : GetByPath tr t n =
      match [e1, e2].foldl resolveStep none with
      | some (e, false) => some e
      | _ => none := by
    rw [GetByPath, buildIndex, lookup_fold, hf]
    rfl
  refine ⟨?_, ?_, ?_⟩
  · rintro ⟨h1, h2⟩
    rw [hbase]
    simp [resolveStep, stepPair, h1, h2]
  · rintro ⟨h1, h2⟩
    rw [hbase]
    simp [resolveStep, stepPair, h1, h2]
  · intro h
    rw [hbase]
    simp [resolveStep, stepPair, h]

/-- C5 witness: a type embedding `A` (which declares `"n"` at depth 1
and embeds `B` declaring `"n"` at depth 2) resolves `"n"` to the
depth-1 field; a type with two embedded sub-records both declaring
`"m"` at depth 1 resolves `"m"` to absent. -/
theorem getByPath_shadowing_witness :
    GetByPath id (.comp [("A", none, .comp
        [("x", some "n", .prim),
         ("B", none, .comp [("y", some "n", .prim)])])]) "n"
      = some ⟨"n", [0, 0], 1⟩
    ∧ GetByPath id (.comp
        [("A", none, .comp [("x", some "m", .prim)]),
         ("B", none, .comp [("y", some "m", .prim)])]) "m"
      = none := by
  constructor
  · exact (getByPath_shadowing id _ "n" ⟨"n", [0, 0], 1⟩ ⟨"n", [0, 1, 0], 2⟩
      (by decide)).1 ⟨rfl, rfl⟩
  · exact (getByPath_shadowing id _ "m" ⟨"m", [0, 0], 1⟩ ⟨"m", [1, 0], 1⟩
      (by decide)).2.2 rfl
